import Mathlib

/-!
Verification of the recipe text-classification engine (`scripts/import_recipe_manual.py`,
function `parse_recipe_text`) and of the collection-editing scripts
(`scripts/delete_recipe.py`, `scripts/update_notes.py`, `scripts/update_recipe_metadata.py`).

Strings are modelled as `List Char` (Python `str` is a sequence of code points).
Python's regular-expression substitutions are modelled by explicit scanning functions
that mirror `re.sub` semantics (leftmost match, greedy quantifiers, non-overlapping
left-to-right replacement).  Character classes (`\s`, `\w`, `str.lower`) are modelled
on the character repertoire the program's patterns and our inputs use (ASCII plus the
bullet/fraction/dash glyphs appearing in the source).
-/

namespace Recipes

/-- Python whitespace for `str.strip` / regex `\s` (common repertoire). -/
def isPyWs (c : Char) : Bool :=
  c == ' ' || c == '\t' || c == '\n' || c == '\r' || c == '\x0b' || c == '\x0c'

/-- `str.lower` restricted to ASCII letters (all pattern keywords are ASCII). -/
def lowerChar (c : Char) : Char :=
  if 'A' ≤ c ∧ c ≤ 'Z' then Char.ofNat (c.toNat + 32) else c

def lowerStr (l : List Char) : List Char := l.map lowerChar

/-- Regex `\w` (word character), ASCII repertoire. -/
def isWordChar (c : Char) : Bool := c.isAlphanum || c == '_'

/-- `pat` is a prefix of `l`. -/
def isPrefixL : List Char → List Char → Bool
  | [], _ => true
  | _ :: _, [] => false
  | p :: ps, c :: cs => p == c && isPrefixL ps cs

/-- Python `pat in l` (substring containment). -/
def containsSub (pat : List Char) : List Char → Bool
  | [] => isPrefixL pat []
  | c :: cs => isPrefixL pat (c :: cs) || containsSub pat cs

/-- Python `str.strip()`: drop leading and trailing whitespace. -/
def pyStrip (l : List Char) : List Char :=
  ((l.dropWhile isPyWs).reverse.dropWhile isPyWs).reverse

/-- Python `s.split('\n')`. -/
def splitNl : List Char → List (List Char)
  | [] => [[]]
  | c :: cs =>
    if c = '\n' then [] :: splitNl cs
    else
      match splitNl cs with
      | [] => [[c]]
      | p :: ps => (c :: p) :: ps

/-! ### Normalizer: the substitution passes of `parse_recipe_text` (source lines 36-56)

Each scanning function takes a fuel argument (initialised to the input length; every
recursive call consumes at least one input character, so the fuel never runs out). -/

/-- Python `text.replace(pat, repl)`: non-overlapping left-to-right replacement. -/
def replaceSubAux (pat repl : List Char) : Nat → List Char → List Char
  | 0, l => l
  | _ + 1, [] => []
  | fuel + 1, c :: cs =>
    if pat ≠ [] ∧ pat.isPrefixOf (c :: cs) then
      repl ++ replaceSubAux pat repl fuel ((c :: cs).drop pat.length)
    else
      c :: replaceSubAux pat repl fuel cs

def replaceSub (pat repl l : List Char) : List Char :=
  replaceSubAux pat repl l.length l

/-- `re.sub(g+, '\n\n', s)`: a maximal run of the glyph `g` becomes a blank-line break. -/
def subRuns1Aux (g : Char) : Nat → List Char → List Char
  | 0, l => l
  | _ + 1, [] => []
  | fuel + 1, c :: cs =>
    if c = g then '\n' :: '\n' :: subRuns1Aux g fuel (cs.dropWhile (· == g))
    else c :: subRuns1Aux g fuel cs

def subRuns1 (g : Char) (l : List Char) : List Char := subRuns1Aux g l.length l

/-- `re.sub(g{3,}, '\n\n', s)`: a run of three or more `g` becomes a blank-line break. -/
def subRuns3Aux (g : Char) : Nat → List Char → List Char
  | 0, l => l
  | _ + 1, [] => []
  | fuel + 1, c :: cs =>
    if c = g then
      if 2 ≤ (cs.takeWhile (· == g)).length then
        '\n' :: '\n' :: subRuns3Aux g fuel (cs.dropWhile (· == g))
      else (c :: cs.takeWhile (· == g)) ++ subRuns3Aux g fuel (cs.dropWhile (· == g))
    else c :: subRuns3Aux g fuel cs

def subRuns3 (g : Char) (l : List Char) : List Char := subRuns3Aux g l.length l

/-- `re.sub(r'(\s|^)•\s*', '\n', s)`, positions after the start of the string. -/
def subBulletAux : Nat → List Char → List Char
  | 0, l => l
  | _ + 1, [] => []
  | fuel + 1, c :: cs =>
    match cs with
    | [] => [c]
    | d :: ds =>
      if isPyWs c ∧ d = '•' then '\n' :: subBulletAux fuel (ds.dropWhile isPyWs)
      else c :: subBulletAux fuel (d :: ds)

/-- `re.sub(r'(\s|^)•\s*', '\n', s)`: the `^` alternative can only fire at position 0. -/
def subBullet (l : List Char) : List Char :=
  match l with
  | '•' :: cs => '\n' :: subBulletAux cs.length (cs.dropWhile isPyWs)
  | _ => subBulletAux l.length l

/-- `re.sub(r'(\s|^)\*\s+', '\n* ', s)`, positions after the start of the string. -/
def subStarAux : Nat → List Char → List Char
  | 0, l => l
  | _ + 1, [] => []
  | fuel + 1, c :: cs =>
    match cs with
    | d :: e :: ds =>
      if isPyWs c ∧ d = '*' ∧ isPyWs e then
        '\n' :: '*' :: ' ' :: subStarAux fuel (ds.dropWhile isPyWs)
      else c :: subStarAux fuel (d :: e :: ds)
    | _ => c :: cs

/-- `re.sub(r'(\s|^)\*\s+', '\n* ', s)`: the `^` alternative can only fire at position 0. -/
def subStar (l : List Char) : List Char :=
  match l with
  | '*' :: e :: ds =>
    if isPyWs e then '\n' :: '*' :: ' ' :: subStarAux ds.length (ds.dropWhile isPyWs)
    else subStarAux l.length l
  | _ => subStarAux l.length l

/-- `re.sub(r'\s+(\d+)\.\s+', '\n\1. ', s)`.  A failed attempt at the start of a
whitespace run fails at every later position of the same run, so the scan may emit
the whole run and continue after it. -/
def subNumAux : Nat → List Char → List Char
  | 0, l => l
  | _ + 1, [] => []
  | fuel + 1, c :: cs =>
    if isPyWs c then
      let afterWs := cs.dropWhile isPyWs
      let digs := afterWs.takeWhile Char.isDigit
      let afterDigs := afterWs.dropWhile Char.isDigit
      if !digs.isEmpty ∧ afterDigs.headD 'x' = '.' ∧ isPyWs (afterDigs.tail.headD 'x') then
        '\n' :: (digs ++ '.' :: ' ' :: subNumAux fuel (afterDigs.tail.dropWhile isPyWs))
      else (c :: cs.takeWhile isPyWs) ++ subNumAux fuel afterWs
    else c :: subNumAux fuel cs

def subNum (l : List Char) : List Char := subNumAux l.length l

/-- The whole normalization pipeline of `parse_recipe_text` (source lines 36-54),
applied in source order. -/
def normalizeText (t : List Char) : List Char :=
  subNum (subStar (subBullet (replaceSub ("\n•\n").data ("\n").data
    (subRuns3 '=' (subRuns3 '-' (subRuns1 '—' (subRuns1 '⸻'
      (replaceSub ("\t").data ("\n").data
        (replaceSub ("\\r").data ("\n").data
          (replaceSub ("\\r\\n").data ("\n").data
            (replaceSub ("\\n").data ("\n").data t)))))))))))

/-- `lines = [line.strip() for line in normalized.split('\n') if line.strip()]`. -/
def linesOf (t : List Char) : List (List Char) :=
  (splitNl (normalizeText t)).filterMap
    (fun p => if (pyStrip p).isEmpty then none else some (pyStrip p))

/-! ### Classifier (source lines 58-144) -/

/-- `re.match(r'^\d+\.', line)`: one or more digits followed by a period. -/
def startsNumDot (l : List Char) : Bool :=
  !(l.takeWhile Char.isDigit).isEmpty && ((l.dropWhile Char.isDigit).headD 'x' == '.')

def ingredientKeywords : List (List Char) :=
  [("ingredient").data, ("ingredients").data, ("what you need").data, ("you will need").data]

def instructionKeywords : List (List Char) :=
  [("instruction").data, ("instructions").data, ("direction").data, ("directions").data,
   ("steps").data, ("method").data, ("preparation").data, ("how to make").data]

/-- Header detection (source lines 72-88): not a numbered item, shorter than 100
characters, and the stripped lowercased line contains / starts with / equals a keyword. -/
def isHeaderWith (kws : List (List Char)) (line : List Char) : Bool :=
  let lower := pyStrip (lowerStr line)
  !(startsNumDot line) && decide (line.length < 100) &&
    kws.any (fun k => containsSub k lower || isPrefixL (k ++ [':']) lower || lower == k)

def isIngredientsHeader (line : List Char) : Bool := isHeaderWith ingredientKeywords line

def isInstructionsHeader (line : List Char) : Bool := isHeaderWith instructionKeywords line

def measurementWords : List (List Char) :=
  [("cup").data, ("cups").data, ("tablespoon").data, ("tbsp").data, ("teaspoon").data,
   ("tsp").data, ("ounce").data, ("oz").data, ("pound").data, ("lb").data, ("gram").data,
   ("grams").data, ("g").data, ("kg").data, ("ml").data, ("liter").data, ("pinch").data,
   ("dash").data]

/-- One keyword of `ks` occurs here with `\b` word boundaries on both sides
(`prev` is the character one position back, if any). -/
def wordHereWith (ks : List (List Char)) (prev : Option Char) (l : List Char) : Bool :=
  (match prev with
   | none => true
   | some p => !isWordChar p) &&
  ks.any (fun k => isPrefixL k l && !(isWordChar ((l.drop k.length).headD ' ')))

/-- `re.search(r'\b(...)\b', l)` for a list of keywords. -/
def searchWord (ks : List (List Char)) : Option Char → List Char → Bool
  | _, [] => false
  | prev, c :: cs => wordHereWith ks prev (c :: cs) || searchWord ks (some c) cs

/-- `re.search(measurement_pattern, lower_line)` (source line 121-122). -/
def hasMeasurement (lower : List Char) : Bool := searchWord measurementWords none lower

def quantityUnits : List (List Char) :=
  [("cup").data, ("tbsp").data, ("tsp").data, ("oz").data, ("lb").data, ("g").data,
   ("kg").data, ("ml").data]

/-- `re.match(r'^\d+(/\d+)?\s*(½|¼|¾)?\s*(cup|tbsp|tsp|oz|lb|g|kg|ml)', lower_line)`
(source line 123).  Greediness never needs backtracking here: whenever an optional
group can be taken and is skipped instead, the next mandatory alternative fails. -/
def startsNumUnit (l : List Char) : Bool :=
  let digs := l.takeWhile Char.isDigit
  if digs.isEmpty then false else
  let r1 := l.dropWhile Char.isDigit
  let r2 :=
    if r1.headD ' ' = '/' ∧ !(r1.tail.takeWhile Char.isDigit).isEmpty then
      r1.tail.dropWhile Char.isDigit
    else r1
  let r3 := r2.dropWhile isPyWs
  let r4 := if r3.headD ' ' ∈ ['½', '¼', '¾'] then r3.tail else r3
  let r5 := r4.dropWhile isPyWs
  quantityUnits.any (fun u => isPrefixL u r5)

/-- `re.sub(r'^[•\-\*]\s*', '', line)`: strip one leading bullet and following whitespace. -/
def bulletStrip (l : List Char) : List Char :=
  match l with
  | c :: cs => if c = '•' ∨ c = '-' ∨ c = '*' then cs.dropWhile isPyWs else l
  | [] => []

/-- `re.sub(r'^\d+\.\s*', '', line)`: strip a leading `N.` marker and following whitespace. -/
def numberStrip (l : List Char) : List Char :=
  if startsNumDot l then ((l.dropWhile Char.isDigit).tail).dropWhile isPyWs
  else l

/-- The `current_section` state of the scan. -/
inductive RSection where
  | ingredients
  | instructions
deriving DecidableEq

/-- The classifier's loop state: active section and the two output lists. -/
structure ParseState where
  cur : Option RSection
  ings : List (List Char)
  insts : List (List Char)
deriving DecidableEq

/-- The body of the `for line in lines` loop (source lines 67-138). -/
def lineStep (st : ParseState) (line : List Char) : ParseState :=
  if isIngredientsHeader line then { st with cur := some RSection.ingredients }
  else if isInstructionsHeader line then { st with cur := some RSection.instructions }
  else if line.length < 3 then st
  else
    match st.cur with
    | some RSection.ingredients =>
      let cleaned := bulletStrip line
      if cleaned.isEmpty then st else { st with ings := st.ings ++ [cleaned] }
    | some RSection.instructions =>
      let cleaned := bulletStrip (numberStrip line)
      if cleaned.isEmpty then st else { st with insts := st.insts ++ [cleaned] }
    | none =>
      let cleanedLine := bulletStrip line
      if startsNumDot line then
        let c2 := numberStrip cleanedLine
        if c2.isEmpty then st else { st with insts := st.insts ++ [c2] }
      else if (hasMeasurement (lowerStr line) || startsNumUnit (lowerStr line)) &&
              decide (line.length < 150) then
        { st with ings := st.ings ++ [cleanedLine] }
      else
        { st with insts := st.insts ++ [cleanedLine] }

/-- The classifier scan over the normalized lines. -/
def classifyLines (lines : List (List Char)) : ParseState :=
  lines.foldl lineStep ⟨none, [], []⟩

/-- The scan followed by the global fallback (source lines 140-144):
if nothing was classified, every normalized line goes to instructions. -/
def classifyWithFallback (lines : List (List Char)) : List (List Char) × List (List Char) :=
  let st := classifyLines lines
  if st.ings.isEmpty && st.insts.isEmpty then ([], lines)
  else (st.ings, st.insts)

/-- `parse_recipe_text`: normalize, classify, apply the global fallback;
returns `(ingredients, instructions)`. -/
def parseRecipeText (t : List Char) : List (List Char) × List (List Char) :=
  classifyWithFallback (linesOf t)

/-! ### Derived views of the classifier used by the invariant claims -/

/-- What a non-header line contributes to the ingredients list while the
Ingredients section is active. -/
def ingOpt (l : List Char) : Option (List Char) :=
  if l.length < 3 then none
  else if (bulletStrip l).isEmpty then none else some (bulletStrip l)

/-- What a non-header line contributes to the instructions list while the
Instructions section is active. -/
def insOpt (l : List Char) : Option (List Char) :=
  if l.length < 3 then none
  else if (bulletStrip (numberStrip l)).isEmpty then none
  else some (bulletStrip (numberStrip l))

/-- The verdict a single line receives: the new section state, and at most one
output entry, tagged `inl` for ingredients and `inr` for instructions.
This mirrors `lineStep` branch for branch. -/
def lineVerdict (cur : Option RSection) (line : List Char) :
    Option RSection × Option (List Char ⊕ List Char) :=
  if isIngredientsHeader line then (some RSection.ingredients, none)
  else if isInstructionsHeader line then (some RSection.instructions, none)
  else if line.length < 3 then (cur, none)
  else
    match cur with
    | some RSection.ingredients =>
      let cleaned := bulletStrip line
      (cur, if cleaned.isEmpty then none else some (Sum.inl cleaned))
    | some RSection.instructions =>
      let cleaned := bulletStrip (numberStrip line)
      (cur, if cleaned.isEmpty then none else some (Sum.inr cleaned))
    | none =>
      let cleanedLine := bulletStrip line
      if startsNumDot line then
        let c2 := numberStrip cleanedLine
        (cur, if c2.isEmpty then none else some (Sum.inr c2))
      else if (hasMeasurement (lowerStr line) || startsNumUnit (lowerStr line)) &&
              decide (line.length < 150) then
        (cur, some (Sum.inl cleanedLine))
      else
        (cur, some (Sum.inr cleanedLine))

/-- The sequence of verdicts of a scan: one verdict per input line. -/
def scanVerdicts : Option RSection → List (List Char) → List (Option (List Char ⊕ List Char))
  | _, [] => []
  | cur, l :: ls => (lineVerdict cur l).2 :: scanVerdicts (lineVerdict cur l).1 ls

/-- The verdicts of a whole `parse_recipe_text` run: the scan's verdicts, except
that when the global fallback fires every line's verdict is the line itself as an
instruction. -/
def parseVerdicts (t : List Char) : List (Option (List Char ⊕ List Char)) :=
  let st := classifyLines (linesOf t)
  if st.ings.isEmpty && st.insts.isEmpty then
    (linesOf t).map (fun l => some (Sum.inr l))
  else scanVerdicts none (linesOf t)

def leftOf : Option (List Char ⊕ List Char) → Option (List Char)
  | some (Sum.inl s) => some s
  | _ => none

def rightOf : Option (List Char ⊕ List Char) → Option (List Char)
  | some (Sum.inr s) => some s
  | _ => none

/-- A verdict's payload is the source line with decorative prefixes stripped
(exactly one of the classifier's cleanings, or the raw line for the fallback). -/
def verdictFromLine (l : List Char) : Option (List Char ⊕ List Char) → Prop
  | none => True
  | some (Sum.inl s) => s = bulletStrip l
  | some (Sum.inr s) =>
    s = l ∨ s = bulletStrip l ∨ s = bulletStrip (numberStrip l) ∨ s = numberStrip (bulletStrip l)

/-- The first character, if any, is not whitespace. -/
def noLeadWs (l : List Char) : Bool :=
  match l.head? with
  | none => true
  | some c => !isPyWs c

/-- The last character, if any, is not whitespace. -/
def noTrailWs (l : List Char) : Bool :=
  match l.getLast? with
  | none => true
  | some c => !isPyWs c

/-- Modelled from the spec (section 4.2 step 4, claim C5): the spec's version of the
no-signal ingredient test, in which the leading bullet marker is stripped *before*
pattern matching.  Used only to compare the spec's words with the code's behaviour. -/
def specIngredientSignal (line : List Char) : Bool :=
  (hasMeasurement (lowerStr (bulletStrip line)) ||
    startsNumUnit (lowerStr (bulletStrip line))) && decide (line.length < 150)

/-! ### The collection-editing scripts (claim C10)

`delete_recipe`, `update_recipe_notes` and `update_recipe_metadata` all load the
collection, search it for the given id, and call `save_recipes` only on success.
Each is modelled as a pure function from the loaded collection to
`(returned bool, the list passed to save_recipes if it was called)`. -/

structure Recipe where
  id : List Char
  title : List Char
  description : List Char
  prepTime : List Char
  cookTime : List Char
  servings : List Char
  image : List Char
  notes : List Char
  sourceUrl : List Char
deriving DecidableEq

/-- `delete_recipe (scripts/delete_recipe.py lines 26-69)`. -/
def delete_recipe (rid : List Char) (recipes : List Recipe) :
    Bool × Option (List Recipe) :=
  if recipes.isEmpty then (false, none)
  else
    match recipes.find? (fun r => r.id == rid) with
    | none => (false, none)
    | some _ => (true, some (recipes.filter (fun r => !(r.id == rid))))

/-- The loop of `update_recipe_notes`: set `notes` on the first recipe with the id. -/
def setNotesFirst (rid notes : List Char) : List Recipe → List Recipe
  | [] => []
  | r :: rs =>
    if r.id == rid then { r with notes := notes } :: rs
    else r :: setNotesFirst rid notes rs

/-- `update_recipe_notes (scripts/update_notes.py lines 26-66)`. -/
def update_recipe_notes (rid notes : List Char) (recipes : List Recipe) :
    Bool × Option (List Recipe) :=
  if recipes.isEmpty then (false, none)
  else if recipes.any (fun r => r.id == rid) then
    (true, some (setNotesFirst rid notes recipes))
  else (false, none)

/-- The optional keyword arguments of `update_recipe_metadata`
(a `None`/absent field is not updated). -/
structure MetadataUpdates where
  description : Option (List Char)
  image : Option (List Char)
  prepTime : Option (List Char)
  cookTime : Option (List Char)
  servings : Option (List Char)
  sourceUrl : Option (List Char)
deriving DecidableEq

def applyUpdates (u : MetadataUpdates) (r : Recipe) : Recipe :=
  let r1 := match u.description with
            | some v => { r with description := v }
            | none => r
  let r2 := match u.image with
            | some v => { r1 with image := v }
            | none => r1
  let r3 := match u.prepTime with
            | some v => { r2 with prepTime := v }
            | none => r2
  let r4 := match u.cookTime with
            | some v => { r3 with cookTime := v }
            | none => r3
  let r5 := match u.servings with
            | some v => { r4 with servings := v }
            | none => r4
  match u.sourceUrl with
  | some v => { r5 with sourceUrl := v }
  | none => r5

/-- `updated_fields` is non-empty iff at least one field was provided. -/
def anyUpdate (u : MetadataUpdates) : Bool :=
  u.description.isSome || u.image.isSome || u.prepTime.isSome ||
    u.cookTime.isSome || u.servings.isSome || u.sourceUrl.isSome

/-- The loop of `update_recipe_metadata`: update the first recipe with the id. -/
def updateFirstMeta (rid : List Char) (u : MetadataUpdates) : List Recipe → List Recipe
  | [] => []
  | r :: rs =>
    if r.id == rid then applyUpdates u r :: rs
    else r :: updateFirstMeta rid u rs

/-- `update_recipe_metadata (scripts/update_recipe_metadata.py lines 27-127)`. -/
def update_recipe_metadata (rid : List Char) (u : MetadataUpdates)
    (recipes : List Recipe) : Bool × Option (List Recipe) :=
  if recipes.isEmpty then (false, none)
  else if recipes.any (fun r => r.id == rid) then
    if anyUpdate u then (true, some (updateFirstMeta rid u recipes))
    else (false, none)
  else (false, none)

/-- The section state after scanning a list of lines. -/
def scanCur : Option RSection → List (List Char) → Option RSection
  | c, [] => c
  | c, l :: ls => scanCur (lineVerdict c l).1 ls

/-- A concrete one-recipe collection used to exercise the editing scripts. -/
def sampleRecipe : Recipe :=
  ⟨("r1").data, ("Title").data, [], [], [], [], [], [], []⟩

/-- An update request with no fields provided. -/
def emptyUpdates : MetadataUpdates := ⟨none, none, none, none, none, none⟩

/-! ### Helper lemmas -/

lemma head?_dropWhile_not (p : Char → Bool) (l : List Char) {c : Char}
    (h : (l.dropWhile p).head? = some c) : p c = false := by
  induction l with
  | nil => simp [List.dropWhile] at h
  | cons a l ih =>
    rw [List.dropWhile_cons] at h
    by_cases hp : p a
    · rw [if_pos hp] at h
      exact ih h
    · rw [if_neg hp] at h
      simp only [List.head?_cons, Option.some.injEq] at h
      subst h
      simpa using hp

lemma getLast?_append_right {Y : List Char} (t : List Char) (hY : Y ≠ []) :
    (t ++ Y).getLast? = Y.getLast? := by
  induction t with
  | nil => rfl
  | cons a t ih =>
    have hne : t ++ Y ≠ [] := by
      intro h
      exact hY (List.append_eq_nil.mp h).2
    cases he : t ++ Y with
    | nil => exact absurd he hne
    | cons b r =>
      rw [List.cons_append, he, List.getLast?_cons_cons, ← he, ih]

lemma noTrailWs_pyStrip (l : List Char) : noTrailWs (pyStrip l) = true := by
  unfold noTrailWs pyStrip
  rw [List.getLast?_reverse]
  cases hh : (((l.dropWhile isPyWs).reverse).dropWhile isPyWs).head? with
  | none => rfl
  | some c => simp [head?_dropWhile_not _ _ hh]

lemma noLeadWs_pyStrip (l : List Char) : noLeadWs (pyStrip l) = true := by
  unfold noLeadWs pyStrip
  rw [List.head?_reverse]
  cases hY : (((l.dropWhile isPyWs).reverse).dropWhile isPyWs).getLast? with
  | none => rfl
  | some c =>
    have hne : ((l.dropWhile isPyWs).reverse).dropWhile isPyWs ≠ [] := by
      intro h0
      rw [h0] at hY
      exact Option.noConfusion hY
    obtain ⟨t, ht⟩ :=
      List.dropWhile_suffix (l := (l.dropWhile isPyWs).reverse) isPyWs
    have h1 : ((l.dropWhile isPyWs).reverse).getLast? = some c := by
      rw [← ht, getLast?_append_right t hne, hY]
    rw [List.getLast?_reverse] at h1
    simp [head?_dropWhile_not _ _ h1]

lemma mem_pyStrip_sub {c : Char} {l : List Char} (h : c ∈ pyStrip l) : c ∈ l := by
  unfold pyStrip at h
  rw [List.mem_reverse] at h
  have h1 := (List.dropWhile_suffix (l := (l.dropWhile isPyWs).reverse) isPyWs).subset h
  rw [List.mem_reverse] at h1
  exact (List.dropWhile_suffix (l := l) isPyWs).subset h1

lemma splitNl_no_nl : ∀ (s : List Char), ∀ p ∈ splitNl s, '\n' ∉ p := by
  intro s
  induction s with
  | nil =>
    intro p hp
    simp only [splitNl, List.mem_singleton] at hp
    subst hp
    simp
  | cons c cs ih =>
    intro p hp
    unfold splitNl at hp
    by_cases hc : c = '\n'
    · rw [if_pos hc] at hp
      rcases List.mem_cons.mp hp with h | h
      · subst h; simp
      · exact ih p h
    · rw [if_neg hc] at hp
      cases hsp : splitNl cs with
      | nil =>
        rw [hsp] at hp
        simp only [List.mem_singleton] at hp
        subst hp
        intro hmem
        rcases List.mem_cons.mp hmem with h2 | h2
        · exact hc h2.symm
        · simp at h2
      | cons q qs =>
        rw [hsp] at hp
        rcases List.mem_cons.mp hp with h | h
        · subst h
          intro hmem
          rcases List.mem_cons.mp hmem with h2 | h2
          · exact hc h2.symm
          · exact ih q (by rw [hsp]; exact List.mem_cons_self q qs) h2
        · exact ih p (by rw [hsp]; exact List.mem_cons.mpr (Or.inr h))

/-- Every normalized line is non-empty, trimmed on both sides, and free of line
breaks. -/
lemma linesOf_mem {t l : List Char} (h : l ∈ linesOf t) :
    l ≠ [] ∧ noLeadWs l = true ∧ noTrailWs l = true ∧ '\n' ∉ l := by
  unfold linesOf at h
  rw [List.mem_filterMap] at h
  obtain ⟨p, hp, he⟩ := h
  by_cases hemp : (pyStrip p).isEmpty
  · rw [if_pos hemp] at he
    exact Option.noConfusion he
  · rw [if_neg hemp] at he
    have he' : pyStrip p = l := Option.some.injEq _ _ ▸ he
    subst he'
    refine ⟨?_, noLeadWs_pyStrip p, noTrailWs_pyStrip p, ?_⟩
    · intro h0
      rw [h0] at hemp
      exact hemp rfl
    · intro hmem
      exact splitNl_no_nl (normalizeText t) p hp (mem_pyStrip_sub hmem)

/-- A trimmed line of length at least 3 survives bullet stripping. -/
lemma bulletStrip_ne_nil {l : List Char} (h3 : 3 ≤ l.length)
    (ht : noTrailWs l = true) : bulletStrip l ≠ [] := by
  cases l with
  | nil => simp at h3
  | cons c cs =>
    have hred : bulletStrip (c :: cs) =
        if c = '•' ∨ c = '-' ∨ c = '*' then cs.dropWhile isPyWs else c :: cs := rfl
    rw [hred]
    by_cases hb : c = '•' ∨ c = '-' ∨ c = '*'
    · rw [if_pos hb]
      intro h0
      have hall := List.dropWhile_eq_nil_iff.mp h0
      have hcs : cs ≠ [] := by
        intro h1
        rw [h1] at h3
        simp at h3
      have hlast : (c :: cs).getLast? = cs.getLast? := by
        cases cs with
        | nil => exact absurd rfl hcs
        | cons d ds => exact List.getLast?_cons_cons
      have hx : cs.getLast? = some (cs.getLast hcs) := List.getLast?_eq_getLast cs hcs
      have hmem : cs.getLast hcs ∈ cs := List.getLast_mem hcs
      have hws : isPyWs (cs.getLast hcs) = true := hall _ hmem
      unfold noTrailWs at ht
      rw [hlast, hx] at ht
      simp [hws] at ht
    · rw [if_neg hb]
      simp

lemma isEmpty_false_of_ne_nil {α : Type} {l : List α} (h : l ≠ []) :
    l.isEmpty = false := by
  cases l with
  | nil => exact absurd rfl h
  | cons a l => rfl

lemma classifyWithFallback_eq (L : List (List Char)) :
    classifyWithFallback L =
      if (classifyLines L).ings.isEmpty && (classifyLines L).insts.isEmpty then ([], L)
      else ((classifyLines L).ings, (classifyLines L).insts) := rfl

lemma parseVerdicts_eq (t : List Char) :
    parseVerdicts t =
      if (classifyLines (linesOf t)).ings.isEmpty &&
          (classifyLines (linesOf t)).insts.isEmpty then
        (linesOf t).map (fun l => some (Sum.inr l))
      else scanVerdicts none (linesOf t) := rfl

/-- Each loop iteration is the verdict of the current line: the new section state,
plus at most one entry appended to exactly one of the two output lists. -/
lemma lineStep_eq_verdict (st : ParseState) (l : List Char) :
    lineStep st l =
      ⟨(lineVerdict st.cur l).1,
       st.ings ++ (leftOf (lineVerdict st.cur l).2).toList,
       st.insts ++ (rightOf (lineVerdict st.cur l).2).toList⟩ := by
  obtain ⟨cur, I, S⟩ := st
  by_cases h1 : isIngredientsHeader l = true
  · simp [lineStep, lineVerdict, h1, leftOf, rightOf]
  · by_cases h2 : isInstructionsHeader l = true
    · simp [lineStep, lineVerdict, h1, h2, leftOf, rightOf]
    · by_cases h3 : l.length < 3
      · simp [lineStep, lineVerdict, h1, h2, h3, leftOf, rightOf]
      · cases cur with
        | none =>
          by_cases h4 : startsNumDot l = true
          · by_cases h5 : (numberStrip (bulletStrip l)).isEmpty = true
            · simp [lineStep, lineVerdict, h1, h2, h3, h4, h5, leftOf, rightOf]
            · simp [lineStep, lineVerdict, h1, h2, h3, h4, h5, leftOf, rightOf]
          · by_cases h6 : ((hasMeasurement (lowerStr l) || startsNumUnit (lowerStr l)) &&
                decide (l.length < 150)) = true
            · simp [lineStep, lineVerdict, h1, h2, h3, h4, h6, leftOf, rightOf]
            · simp [lineStep, lineVerdict, h1, h2, h3, h4, h6, leftOf, rightOf]
        | some sec =>
          cases sec with
          | ingredients =>
            by_cases h5 : (bulletStrip l).isEmpty = true
            · simp [lineStep, lineVerdict, h1, h2, h3, h5, leftOf, rightOf]
            · simp [lineStep, lineVerdict, h1, h2, h3, h5, leftOf, rightOf]
          | instructions =>
            by_cases h5 : (bulletStrip (numberStrip l)).isEmpty = true
            · simp [lineStep, lineVerdict, h1, h2, h3, h5, leftOf, rightOf]
            · simp [lineStep, lineVerdict, h1, h2, h3, h5, leftOf, rightOf]

lemma scanVerdicts_length : ∀ (L : List (List Char)) (c : Option RSection),
    (scanVerdicts c L).length = L.length := by
  intro L
  induction L with
  | nil => intro c; rfl
  | cons l ls ih => intro c; simp [scanVerdicts, ih]

/-- A scan from any starting state produces exactly the outputs projected from
the verdict sequence, in order. -/
lemma foldl_verdict : ∀ (L : List (List Char)) (c : Option RSection)
    (I S : List (List Char)),
    List.foldl lineStep ⟨c, I, S⟩ L =
      ⟨scanCur c L,
       I ++ (scanVerdicts c L).filterMap leftOf,
       S ++ (scanVerdicts c L).filterMap rightOf⟩ := by
  intro L
  induction L with
  | nil => intro c I S; simp [scanVerdicts, scanCur]
  | cons l ls ih =>
    intro c I S
    rw [List.foldl_cons, lineStep_eq_verdict]
    dsimp only
    rw [ih]
    cases hv : (lineVerdict c l).2 with
    | none =>
      simp [scanVerdicts, scanCur, hv, List.filterMap_cons, leftOf, rightOf]
    | some sv =>
      cases sv with
      | inl s =>
        simp [scanVerdicts, scanCur, hv, List.filterMap_cons, leftOf, rightOf]
      | inr s =>
        simp [scanVerdicts, scanCur, hv, List.filterMap_cons, leftOf, rightOf]

lemma classifyLines_eq (L : List (List Char)) :
    classifyLines L =
      ⟨scanCur none L,
       (scanVerdicts none L).filterMap leftOf,
       (scanVerdicts none L).filterMap rightOf⟩ := by
  unfold classifyLines
  rw [foldl_verdict]
  simp

/-- Every verdict payload is its source line with decorative prefixes stripped. -/
lemma verdictFromLine_lineVerdict (c : Option RSection) (l : List Char) :
    verdictFromLine l (lineVerdict c l).2 := by
  by_cases h1 : isIngredientsHeader l = true
  · simp [lineVerdict, h1, verdictFromLine]
  · by_cases h2 : isInstructionsHeader l = true
    · simp [lineVerdict, h1, h2, verdictFromLine]
    · by_cases h3 : l.length < 3
      · simp [lineVerdict, h1, h2, h3, verdictFromLine]
      · cases c with
        | none =>
          by_cases h4 : startsNumDot l = true
          · by_cases h5 : (numberStrip (bulletStrip l)).isEmpty = true
            · simp [lineVerdict, h1, h2, h3, h4, h5, verdictFromLine]
            · simp [lineVerdict, h1, h2, h3, h4, h5, verdictFromLine]
          · by_cases h6 : ((hasMeasurement (lowerStr l) || startsNumUnit (lowerStr l)) &&
                decide (l.length < 150)) = true
            · simp [lineVerdict, h1, h2, h3, h4, h6, verdictFromLine]
            · simp [lineVerdict, h1, h2, h3, h4, h6, verdictFromLine]
        | some sec =>
          cases sec with
          | ingredients =>
            by_cases h5 : (bulletStrip l).isEmpty = true
            · simp [lineVerdict, h1, h2, h3, h5, verdictFromLine]
            · simp [lineVerdict, h1, h2, h3, h5, verdictFromLine]
          | instructions =>
            by_cases h5 : (bulletStrip (numberStrip l)).isEmpty = true
            · simp [lineVerdict, h1, h2, h3, h5, verdictFromLine]
            · simp [lineVerdict, h1, h2, h3, h5, verdictFromLine]

lemma scanVerdicts_from : ∀ (L : List (List Char)) (c : Option RSection) (i : Nat),
    i < L.length →
    verdictFromLine (L.getD i []) ((scanVerdicts c L).getD i none) := by
  intro L
  induction L with
  | nil => intro c i hi; simp at hi
  | cons l ls ih =>
    intro c i hi
    cases i with
    | zero => simpa [scanVerdicts] using verdictFromLine_lineVerdict c l
    | succ j =>
      have hj : j < ls.length := by simpa using hi
      simpa [scanVerdicts] using ih (lineVerdict c l).1 j hj

lemma mem_scanVerdicts : ∀ {L : List (List Char)} {c : Option RSection}
    {v : Option (List Char ⊕ List Char)}, v ∈ scanVerdicts c L →
    ∃ l ∈ L, ∃ c', v = (lineVerdict c' l).2 := by
  intro L
  induction L with
  | nil => intro c v hv; simp [scanVerdicts] at hv
  | cons l ls ih =>
    intro c v hv
    rw [show scanVerdicts c (l :: ls) =
        (lineVerdict c l).2 :: scanVerdicts (lineVerdict c l).1 ls from rfl] at hv
    rcases List.mem_cons.mp hv with h | h
    · exact ⟨l, List.mem_cons_self l ls, c, h⟩
    · obtain ⟨l', hl', c', hv'⟩ := ih h
      exact ⟨l', List.mem_cons.mpr (Or.inr hl'), c', hv'⟩

/-- On a trimmed line, every verdict payload is non-empty. -/
lemma verdict_payload_ne_nil (c : Option RSection) {l : List Char}
    (ht : noTrailWs l = true) {s : List Char}
    (h : (lineVerdict c l).2 = some (Sum.inl s) ∨
         (lineVerdict c l).2 = some (Sum.inr s)) : s ≠ [] := by
  by_cases h1 : isIngredientsHeader l = true
  · simp [lineVerdict, h1] at h
  · by_cases h2 : isInstructionsHeader l = true
    · simp [lineVerdict, h1, h2] at h
    · by_cases h3 : l.length < 3
      · simp [lineVerdict, h1, h2, h3] at h
      · have h3' : 3 ≤ l.length := by omega
        have hbs : bulletStrip l ≠ [] := bulletStrip_ne_nil h3' ht
        cases c with
        | none =>
          by_cases h4 : startsNumDot l = true
          · by_cases h5 : (numberStrip (bulletStrip l)).isEmpty = true
            · simp [lineVerdict, h1, h2, h3, h4, h5] at h
            · simp [lineVerdict, h1, h2, h3, h4, h5] at h
              subst h
              intro h0
              rw [h0] at h5
              exact h5 rfl
          · by_cases h6 : ((hasMeasurement (lowerStr l) || startsNumUnit (lowerStr l)) &&
                decide (l.length < 150)) = true
            · simp [lineVerdict, h1, h2, h3, h4, h6] at h
              subst h
              exact hbs
            · simp [lineVerdict, h1, h2, h3, h4, h6] at h
              subst h
              exact hbs
        | some sec =>
          cases sec with
          | ingredients =>
            by_cases h5 : (bulletStrip l).isEmpty = true
            · simp [lineVerdict, h1, h2, h3, h5] at h
            · simp [lineVerdict, h1, h2, h3, h5] at h
              subst h
              exact hbs
          | instructions =>
            by_cases h5 : (bulletStrip (numberStrip l)).isEmpty = true
            · simp [lineVerdict, h1, h2, h3, h5] at h
            · simp [lineVerdict, h1, h2, h3, h5] at h
              subst h
              intro h0
              rw [h0] at h5
              exact h5 rfl

/-- A header line only moves the section state. -/
lemma lineStep_ing_header (st : ParseState) {l : List Char}
    (h : isIngredientsHeader l = true) :
    lineStep st l = { st with cur := some RSection.ingredients } := by
  simp [lineStep, h]

lemma lineStep_ins_header (st : ParseState) {l : List Char}
    (h1 : isIngredientsHeader l = false) (h2 : isInstructionsHeader l = true) :
    lineStep st l = { st with cur := some RSection.instructions } := by
  simp [lineStep, h1, h2]

lemma lineVerdict_ing_section {l : List Char}
    (h1 : isIngredientsHeader l = false) (h2 : isInstructionsHeader l = false) :
    lineVerdict (some RSection.ingredients) l =
      (some RSection.ingredients, (ingOpt l).map Sum.inl) := by
  unfold lineVerdict ingOpt
  by_cases h3 : l.length < 3
  · simp [h1, h2, h3]
  · by_cases h5 : (bulletStrip l).isEmpty = true
    · simp [h1, h2, h3, h5]
    · simp [h1, h2, h3, h5]

lemma lineVerdict_ins_section {l : List Char}
    (h1 : isIngredientsHeader l = false) (h2 : isInstructionsHeader l = false) :
    lineVerdict (some RSection.instructions) l =
      (some RSection.instructions, (insOpt l).map Sum.inr) := by
  unfold lineVerdict insOpt
  by_cases h3 : l.length < 3
  · simp [h1, h2, h3]
  · by_cases h5 : (bulletStrip (numberStrip l)).isEmpty = true
    · simp [h1, h2, h3, h5]
    · simp [h1, h2, h3, h5]

/-- While the Ingredients section is active, non-header lines contribute exactly
their `ingOpt` cleanings, in order, and the section does not change. -/
lemma foldl_ing_section : ∀ (mid : List (List Char)),
    (∀ l ∈ mid, isIngredientsHeader l = false ∧ isInstructionsHeader l = false) →
    ∀ I S, List.foldl lineStep ⟨some RSection.ingredients, I, S⟩ mid =
      ⟨some RSection.ingredients, I ++ mid.filterMap ingOpt, S⟩ := by
  intro mid
  induction mid with
  | nil => intro _ I S; simp
  | cons l ls ih =>
    intro h I S
    obtain ⟨hl1, hl2⟩ := h l (List.mem_cons_self l ls)
    rw [List.foldl_cons, lineStep_eq_verdict]
    dsimp only
    rw [lineVerdict_ing_section hl1 hl2]
    rw [ih (fun l' hl' => h l' (List.mem_cons.mpr (Or.inr hl')))]
    cases hopt : ingOpt l with
    | none => simp [hopt, leftOf, rightOf, List.filterMap_cons]
    | some s => simp [hopt, leftOf, rightOf, List.filterMap_cons]

/-- While the Instructions section is active, non-header lines contribute exactly
their `insOpt` cleanings, in order, and the section does not change. -/
lemma foldl_ins_section : ∀ (post : List (List Char)),
    (∀ l ∈ post, isIngredientsHeader l = false ∧ isInstructionsHeader l = false) →
    ∀ I S, List.foldl lineStep ⟨some RSection.instructions, I, S⟩ post =
      ⟨some RSection.instructions, I, S ++ post.filterMap insOpt⟩ := by
  intro post
  induction post with
  | nil => intro _ I S; simp
  | cons l ls ih =>
    intro h I S
    obtain ⟨hl1, hl2⟩ := h l (List.mem_cons_self l ls)
    rw [List.foldl_cons, lineStep_eq_verdict]
    dsimp only
    rw [lineVerdict_ins_section hl1 hl2]
    rw [ih (fun l' hl' => h l' (List.mem_cons.mpr (Or.inr hl')))]
    cases hopt : insOpt l with
    | none => simp [hopt, leftOf, rightOf, List.filterMap_cons]
    | some s => simp [hopt, leftOf, rightOf, List.filterMap_cons]

/-- A numbered line can never be a header (`is_numbered` blocks header detection). -/
lemma isHeaderWith_false_of_numDot (kws : List (List Char)) {l : List Char}
    (h : startsNumDot l = true) : isHeaderWith kws l = false := by
  simp [isHeaderWith, h]

/-- A numbered line starts with a digit, so bullet stripping leaves it unchanged. -/
lemma bulletStrip_of_numDot {l : List Char} (h : startsNumDot l = true) :
    bulletStrip l = l := by
  cases l with
  | nil => simp [startsNumDot] at h
  | cons c cs =>
    by_cases hd : c.isDigit = true
    · have hnb : ¬(c = '•' ∨ c = '-' ∨ c = '*') := by
        rintro (rfl | rfl | rfl) <;> exact absurd hd (by decide)
      show (if c = '•' ∨ c = '-' ∨ c = '*' then cs.dropWhile isPyWs else c :: cs) = c :: cs
      rw [if_neg hnb]
    · simp [startsNumDot, List.takeWhile_cons, hd] at h

/-- A line that matches none of the classifier's signals while no section is
active is appended raw to the instructions. -/
lemma lineStep_plain_instruction {l : List Char} (I S : List (List Char))
    (h1 : isIngredientsHeader l = false) (h2 : isInstructionsHeader l = false)
    (h3 : startsNumDot l = false) (h4 : 3 ≤ l.length)
    (h5 : bulletStrip l = l)
    (h6 : hasMeasurement (lowerStr l) = false)
    (h7 : startsNumUnit (lowerStr l) = false) :
    lineStep ⟨none, I, S⟩ l = ⟨none, I, S ++ [l]⟩ := by
  have h4' : ¬ l.length < 3 := by omega
  simp [lineStep, h1, h2, h3, h4', h5, h6, h7]

lemma foldl_plain_instructions : ∀ (L : List (List Char)),
    (∀ l ∈ L, isIngredientsHeader l = false ∧ isInstructionsHeader l = false ∧
      startsNumDot l = false ∧ 3 ≤ l.length ∧ bulletStrip l = l ∧
      hasMeasurement (lowerStr l) = false ∧ startsNumUnit (lowerStr l) = false) →
    ∀ I S, List.foldl lineStep ⟨none, I, S⟩ L = ⟨none, I, S ++ L⟩ := by
  intro L
  induction L with
  | nil => intro _ I S; simp
  | cons l ls ih =>
    intro h I S
    obtain ⟨hl1, hl2, hl3, hl4, hl5, hl6, hl7⟩ := h l (List.mem_cons_self l ls)
    rw [List.foldl_cons, lineStep_plain_instruction I S hl1 hl2 hl3 hl4 hl5 hl6 hl7]
    rw [ih (fun l' hl' => h l' (List.mem_cons.mpr (Or.inr hl'))) I (S ++ [l])]
    simp

lemma leftOf_eq_some {v : Option (List Char ⊕ List Char)} {s : List Char}
    (h : leftOf v = some s) : v = some (Sum.inl s) := by
  cases v with
  | none => simp [leftOf] at h
  | some sv =>
    cases sv with
    | inl a => simp [leftOf] at h; rw [h]
    | inr a => simp [leftOf] at h

lemma rightOf_eq_some {v : Option (List Char ⊕ List Char)} {s : List Char}
    (h : rightOf v = some s) : v = some (Sum.inr s) := by
  cases v with
  | none => simp [rightOf] at h
  | some sv =>
    cases sv with
    | inl a => simp [rightOf] at h
    | inr a => simp [rightOf] at h; rw [h]

lemma leftOf_map_inr (L : List (List Char)) :
    (L.map (fun l => some (Sum.inr l))).filterMap leftOf = [] := by
  induction L with
  | nil => rfl
  | cons l ls ih => simp [List.filterMap_cons, leftOf, ih]

lemma rightOf_map_inr (L : List (List Char)) :
    (L.map (fun l => some (Sum.inr l))).filterMap rightOf = L := by
  induction L with
  | nil => rfl
  | cons l ls ih => simp [List.filterMap_cons, rightOf, ih]

lemma getD_map_inr : ∀ (L : List (List Char)) (i : Nat), i < L.length →
    (L.map (fun l => (some (Sum.inr l) : Option (List Char ⊕ List Char)))).getD i none =
      some (Sum.inr (L.getD i [])) := by
  intro L
  induction L with
  | nil => intro i hi; simp at hi
  | cons l ls ih =>
    intro i hi
    cases i with
    | zero => rfl
    | succ j =>
      have hj : j < ls.length := by simpa using hi
      simpa using ih j hj

lemma filterMap_strip_sublist : ∀ (L : List (List Char)),
    (L.filterMap
      (fun p => if (pyStrip p).isEmpty then none else some (pyStrip p))).Sublist
      (L.map pyStrip) := by
  intro L
  induction L with
  | nil => simp
  | cons p ps ih =>
    rw [List.map_cons, List.filterMap_cons]
    by_cases hp : (pyStrip p).isEmpty = true
    · simp only [if_pos hp]
      exact ih.cons _
    · simp only [if_neg hp]
      exact ih.cons₂ _

/-! ### The claims -/

/-- Claim C1, counterexample: the claim says a numbered line is classified as an
instruction with its marker stripped even while an Ingredients section is active;
in fact with an active Ingredients header the numbered line lands in the
ingredients list with its marker retained and the instructions list stays empty. -/
theorem c1_counterexample :
    parseRecipeText (("Ingredients:\n1. Preheat oven to 350F").data) =
      ([("1. Preheat oven to 350F").data], []) := by decide

/-- Claim C1, amended: a line beginning with a numbered-list marker is classified
as an instruction with the marker stripped when no section is active or when the
Instructions section is active; when the Ingredients section is active it is
appended to the ingredients list with the marker retained. -/
theorem c1_numbered_line_amended (I S : List (List Char)) (l : List Char)
    (h1 : startsNumDot l = true) (h2 : 3 ≤ l.length)
    (h3 : numberStrip l ≠ []) (h4 : bulletStrip (numberStrip l) ≠ []) :
    lineStep ⟨none, I, S⟩ l = ⟨none, I, S ++ [numberStrip l]⟩ ∧
    lineStep ⟨some RSection.instructions, I, S⟩ l =
      ⟨some RSection.instructions, I, S ++ [bulletStrip (numberStrip l)]⟩ ∧
    lineStep ⟨some RSection.ingredients, I, S⟩ l =
      ⟨some RSection.ingredients, I ++ [l], S⟩ := by
  have hIng : isIngredientsHeader l = false := isHeaderWith_false_of_numDot _ h1
  have hIns : isInstructionsHeader l = false := isHeaderWith_false_of_numDot _ h1
  have hbs := bulletStrip_of_numDot h1
  have h2' : ¬ l.length < 3 := by omega
  have hlne : l ≠ [] := by
    intro h0
    rw [h0] at h2
    simp at h2
  refine ⟨?_, ?_, ?_⟩
  · simp [lineStep, hIng, hIns, h2', h1, hbs, isEmpty_false_of_ne_nil h3]
  · simp [lineStep, hIng, hIns, h2', isEmpty_false_of_ne_nil h4]
  · simp [lineStep, hIng, hIns, h2', hbs, isEmpty_false_of_ne_nil hlne]

/-- Claim C1, witness for the amended theorem at the line `"1. Mix well"`. -/
theorem c1_witness :
    lineStep ⟨none, [], []⟩ (("1. Mix well").data) =
      ⟨none, [], [("Mix well").data]⟩ ∧
    lineStep ⟨some RSection.ingredients, [], []⟩ (("1. Mix well").data) =
      ⟨some RSection.ingredients, [("1. Mix well").data], []⟩ := by
  have h := c1_numbered_line_amended [] [] (("1. Mix well").data)
    (by decide) (by decide) (by decide) (by decide)
  exact ⟨h.1.trans (by decide), h.2.2.trans (by decide)⟩

/-- Claim C2, counterexample: the claim says no output string starts with a
numbered-list marker; on input `"1."` the only normalized line is too short to
classify, the global fallback copies it verbatim, and the instructions output
starts with the marker `1.`. -/
theorem c2_counterexample :
    parseRecipeText (("1.").data) = ([], [("1.").data]) ∧
    startsNumDot (("1.").data) = true := by decide

/-- Claim C2, amended: every string in either output list of the parser is
non-empty (the leading-marker part of the claim fails: the global fallback and the
Ingredients-section path can both emit strings that still carry a marker). -/
theorem c2_outputs_nonempty (t s : List Char)
    (h : s ∈ (parseRecipeText t).1 ∨ s ∈ (parseRecipeText t).2) : s ≠ [] := by
  have hpt : parseRecipeText t = classifyWithFallback (linesOf t) := rfl
  rw [hpt, classifyWithFallback_eq] at h
  by_cases hc : ((classifyLines (linesOf t)).ings.isEmpty &&
      (classifyLines (linesOf t)).insts.isEmpty) = true
  · rw [if_pos hc] at h
    dsimp only at h
    rcases h with h | h
    · simp at h
    · exact (linesOf_mem h).1
  · rw [if_neg hc] at h
    rw [classifyLines_eq] at h
    dsimp only at h
    rcases h with h | h
    · obtain ⟨v, hv, hlv⟩ := List.mem_filterMap.mp h
      obtain ⟨l, hlL, c', hveq⟩ := mem_scanVerdicts hv
      have hvs := leftOf_eq_some hlv
      rw [hveq] at hvs
      exact verdict_payload_ne_nil c' (linesOf_mem hlL).2.2.1 (Or.inl hvs)
    · obtain ⟨v, hv, hlv⟩ := List.mem_filterMap.mp h
      obtain ⟨l, hlL, c', hveq⟩ := mem_scanVerdicts hv
      have hvs := rightOf_eq_some hlv
      rw [hveq] at hvs
      exact verdict_payload_ne_nil c' (linesOf_mem hlL).2.2.1 (Or.inr hvs)

/-- Claim C2, witness: the ingredient parsed from `"3 oz milk"` is non-empty. -/
theorem c2_witness : (("3 oz milk").data : List Char) ≠ [] :=
  c2_outputs_nonempty (("3 oz milk").data) (("3 oz milk").data) (Or.inl (by decide))

/-- Claim C3: if the scan classified nothing, every normalized line is returned
as an instruction in original order; and the parser returns two empty lists
exactly when normalization produced no non-empty line. -/
theorem c3_global_fallback (t : List Char) :
    ((classifyLines (linesOf t)).ings = [] ∧ (classifyLines (linesOf t)).insts = [] →
      parseRecipeText t = ([], linesOf t)) ∧
    (parseRecipeText t = ([], []) ↔ linesOf t = []) := by
  have hpt : parseRecipeText t = classifyWithFallback (linesOf t) := rfl
  rw [hpt, classifyWithFallback_eq]
  refine ⟨?_, ?_, ?_⟩
  · intro h
    obtain ⟨h1, h2⟩ := h
    simp [h1, h2]
  · intro h
    by_cases hc : ((classifyLines (linesOf t)).ings.isEmpty &&
        (classifyLines (linesOf t)).insts.isEmpty) = true
    · rw [if_pos hc] at h
      rw [Prod.mk.injEq] at h
      exact h.2
    · rw [if_neg hc] at h
      rw [Prod.mk.injEq] at h
      exfalso
      apply hc
      simp [h.1, h.2]
  · intro h
    rw [h]
    rfl

/-- Claim C3, witness: on `"ab"` (single short line, nothing classified) the
fallback returns the line as the sole instruction. -/
theorem c3_witness : parseRecipeText (("ab").data) = ([], [("ab").data]) := by
  have h := (c3_global_fallback (("ab").data)).1 (by decide)
  exact h.trans (by decide)

/-- Claim C4, counterexample: the claim says the two header lines appear in
neither output list; on `"Ingredients\nInstructions"` nothing is classified, the
global fallback fires, and both header lines appear verbatim in the instructions
output. -/
theorem c4_counterexample :
    isIngredientsHeader (("Ingredients").data) = true ∧
    isInstructionsHeader (("Instructions").data) = true ∧
    parseRecipeText (("Ingredients\nInstructions").data) =
      ([], [("Ingredients").data, ("Instructions").data]) := by decide

/-- Claim C4, amended: when an Ingredients header is followed by non-header lines,
then an Instructions header, then non-header lines, and at least one line is
classified (so the global fallback does not fire), the output is exactly: whatever
the prefix contributed, then the cleaned between-lines as ingredients and the
cleaned after-lines as instructions; the two header lines contribute nothing. -/
theorem c4_sectioned_amended (pre mid post : List (List Char)) (ihd ild : List Char)
    (h1 : isIngredientsHeader ihd = true)
    (h2 : isIngredientsHeader ild = false) (h3 : isInstructionsHeader ild = true)
    (h4 : ∀ l ∈ mid, isIngredientsHeader l = false ∧ isInstructionsHeader l = false)
    (h5 : ∀ l ∈ post, isIngredientsHeader l = false ∧ isInstructionsHeader l = false)
    (h6 : (classifyLines pre).ings ++ mid.filterMap ingOpt ≠ [] ∨
          (classifyLines pre).insts ++ post.filterMap insOpt ≠ []) :
    classifyWithFallback (pre ++ ihd :: (mid ++ ild :: post)) =
      ((classifyLines pre).ings ++ mid.filterMap ingOpt,
       (classifyLines pre).insts ++ post.filterMap insOpt) := by
  have hscan : classifyLines (pre ++ ihd :: (mid ++ ild :: post)) =
      ⟨some RSection.instructions,
       (classifyLines pre).ings ++ mid.filterMap ingOpt,
       (classifyLines pre).insts ++ post.filterMap insOpt⟩ := by
    unfold classifyLines
    rw [List.foldl_append, List.foldl_cons, lineStep_ing_header _ h1]
    rw [List.foldl_append]
    rw [foldl_ing_section mid h4]
    rw [List.foldl_cons, lineStep_ins_header _ h2 h3]
    rw [foldl_ins_section post h5]
  rw [classifyWithFallback_eq, hscan]
  rcases h6 with h6 | h6
  · simp [isEmpty_false_of_ne_nil h6]
  · simp [isEmpty_false_of_ne_nil h6]

/-- Claim C4, witness for the amended theorem on a concrete sectioned recipe. -/
theorem c4_witness :
    classifyWithFallback
      [("Ingredients").data, ("2 cups sugar").data,
       ("Instructions").data, ("Stir well").data] =
      ([("2 cups sugar").data], [("Stir well").data]) := by
  have h := c4_sectioned_amended [] [("2 cups sugar").data] [("Stir well").data]
    (("Ingredients").data) (("Instructions").data)
    (by decide) (by decide) (by decide) (by decide) (by decide)
    (Or.inl (by decide))
  exact h.trans (by decide)

/-- Claim C5, counterexample: the claim says the content tests are applied after
stripping a leading bullet; on `"- 2tbsp butter"` the spec-side test (on the
stripped line) says ingredient, but the code tests the unstripped line, the
quantity match fails on the leading dash, and the line becomes an instruction. -/
theorem c5_counterexample :
    specIngredientSignal (("- 2tbsp butter").data) = true ∧
    parseRecipeText (("- 2tbsp butter").data) =
      ([], [("2tbsp butter").data]) := by decide

/-- Claim C5, amended: with no active section, a non-numbered line is an
ingredient iff the *unstripped* lowercased line contains a measurement keyword or
starts with a numeric quantity and unit, and the line is under 150 characters;
the bullet is stripped only from the output, not for pattern matching. -/
theorem c5_nosection_heuristic_amended (I S : List (List Char)) (l : List Char)
    (h1 : isIngredientsHeader l = false) (h2 : isInstructionsHeader l = false)
    (h3 : startsNumDot l = false) (h4 : 3 ≤ l.length) :
    lineStep ⟨none, I, S⟩ l =
      if (hasMeasurement (lowerStr l) || startsNumUnit (lowerStr l)) &&
          decide (l.length < 150) then
        ⟨none, I ++ [bulletStrip l], S⟩
      else ⟨none, I, S ++ [bulletStrip l]⟩ := by
  have h4' : ¬ l.length < 3 := by omega
  by_cases h6 : ((hasMeasurement (lowerStr l) || startsNumUnit (lowerStr l)) &&
      decide (l.length < 150)) = true
  · simp [lineStep, h1, h2, h3, h4', h6]
  · simp [lineStep, h1, h2, h3, h4', h6]

/-- Claim C5, witness: `"2 cups flour"` with no headers is an ingredient. -/
theorem c5_witness :
    lineStep ⟨none, [], []⟩ (("2 cups flour").data) =
      ⟨none, [("2 cups flour").data], []⟩ := by
  have h := c5_nosection_heuristic_amended [] [] (("2 cups flour").data)
    (by decide) (by decide) (by decide) (by decide)
  exact h.trans (by decide)

/-- Claim C6, counterexample: the claim says instructions fed back through the
classifier never migrate; the instruction `"Add 2 cups flour to the bowl"`
(produced by a prior run) contains a measurement keyword and is reclassified as
an ingredient. -/
theorem c6_counterexample :
    parseRecipeText (("Instructions\nAdd 2 cups flour to the bowl").data) =
      ([], [("Add 2 cups flour to the bowl").data]) ∧
    parseRecipeText (("Add 2 cups flour to the bowl").data) =
      ([("Add 2 cups flour to the bowl").data], []) := by decide

/-- Claim C6, amended: refeeding a list of already-stripped instruction lines
reproduces the instructions-only split provided each line carries no classifier
signal: it is not a header, not numbered, not bullet-prefixed, at least 3
characters, and matches no measurement or quantity pattern. -/
theorem c6_idempotence_amended (L : List (List Char))
    (h : ∀ l ∈ L, isIngredientsHeader l = false ∧ isInstructionsHeader l = false ∧
      startsNumDot l = false ∧ 3 ≤ l.length ∧ bulletStrip l = l ∧
      hasMeasurement (lowerStr l) = false ∧ startsNumUnit (lowerStr l) = false) :
    classifyWithFallback L = ([], L) := by
  have hscan : classifyLines L = ⟨none, [], L⟩ := by
    unfold classifyLines
    rw [foldl_plain_instructions L h [] []]
    simp
  rw [classifyWithFallback_eq, hscan]
  cases L with
  | nil => rfl
  | cons l ls => simp

/-- Claim C6, witness: two plain instruction lines are reproduced unchanged. -/
theorem c6_witness :
    classifyWithFallback [("Preheat the oven").data, ("Serve warm").data] =
      ([], [("Preheat the oven").data, ("Serve warm").data]) :=
  c6_idempotence_amended _ (by decide)

/-- Claim C7: a line matching both header keyword sets is treated as an
ingredients header — the section becomes Ingredients and the line is discarded;
ingredients detection is evaluated first and wins. -/
theorem c7_ambiguous_header_ingredients_wins (c : Option RSection)
    (I S : List (List Char)) (l : List Char)
    (h1 : isIngredientsHeader l = true) (h2 : isInstructionsHeader l = true) :
    lineStep ⟨c, I, S⟩ l = ⟨some RSection.ingredients, I, S⟩ := by
  simp [lineStep, h1]

/-- Claim C7, witness: `"Ingredients and Directions"` matches both keyword sets
and is treated as an ingredients header. -/
theorem c7_witness :
    lineStep ⟨none, [], []⟩ (("Ingredients and Directions").data) =
      ⟨some RSection.ingredients, [], []⟩ :=
  c7_ambiguous_header_ingredients_wins none [] [] (("Ingredients and Directions").data)
    (by decide) (by decide)

section

attribute [local irreducible] linesOf

/-- Claim C8: each normalized line receives exactly one verdict (one-to-one, in
order); the ingredients output is the in-order projection of the ingredient
verdicts and the instructions output of the instruction verdicts, so no line is
classified twice and relative order is preserved; every verdict payload comes
from its own source line. -/
theorem c8_single_classification (t : List Char) :
    (parseVerdicts t).length = (linesOf t).length ∧
    (parseRecipeText t).1 = (parseVerdicts t).filterMap leftOf ∧
    (parseRecipeText t).2 = (parseVerdicts t).filterMap rightOf ∧
    ∀ i, i < (linesOf t).length →
      verdictFromLine ((linesOf t).getD i []) ((parseVerdicts t).getD i none) := by
  have hpt : parseRecipeText t = classifyWithFallback (linesOf t) := rfl
  rw [hpt, classifyWithFallback_eq, parseVerdicts_eq]
  by_cases hc : ((classifyLines (linesOf t)).ings.isEmpty &&
      (classifyLines (linesOf t)).insts.isEmpty) = true
  · rw [if_pos hc, if_pos hc]
    refine ⟨by simp, ?_, ?_, ?_⟩
    · dsimp only
      rw [leftOf_map_inr]
    · dsimp only
      rw [rightOf_map_inr]
    · intro i hi
      rw [getD_map_inr (linesOf t) i hi]
      simp [verdictFromLine]
  · rw [if_neg hc, if_neg hc]
    rw [classifyLines_eq]
    refine ⟨scanVerdicts_length _ _, ?_, ?_, ?_⟩
    · dsimp only
    · dsimp only
    · intro i hi
      exact scanVerdicts_from (linesOf t) none i hi

end

/-- Claim C8, witness at the two-line input `"2 cups flour\nStir and serve"`. -/
theorem c8_witness :
    (parseVerdicts (("2 cups flour\nStir and serve").data)).length =
      (linesOf (("2 cups flour\nStir and serve").data)).length ∧
    verdictFromLine ((linesOf (("2 cups flour\nStir and serve").data)).getD 0 [])
      ((parseVerdicts (("2 cups flour\nStir and serve").data)).getD 0 none) :=
  ⟨(c8_single_classification (("2 cups flour\nStir and serve").data)).1,
   (c8_single_classification (("2 cups flour\nStir and serve").data)).2.2.2 0 (by decide)⟩

/-- Claim C9: every normalized line is non-empty, has no leading or trailing
whitespace and no internal line break, and the line sequence preserves the order
of the pieces of the rewritten text. -/
theorem c9_normalized_lines_invariant (t : List Char) :
    (∀ l ∈ linesOf t,
      l ≠ [] ∧ noLeadWs l = true ∧ noTrailWs l = true ∧ '\n' ∉ l) ∧
    (linesOf t).Sublist ((splitNl (normalizeText t)).map pyStrip) := by
  constructor
  · intro l hl
    exact linesOf_mem hl
  · unfold linesOf
    exact filterMap_strip_sublist _

/-- Claim C9, witness at the line `"Mix and pour"` of its own input. -/
theorem c9_witness :
    (("Mix and pour").data : List Char) ≠ [] ∧
    noLeadWs (("Mix and pour").data) = true ∧
    noTrailWs (("Mix and pour").data) = true ∧
    '\n' ∉ (("Mix and pour").data : List Char) :=
  (c9_normalized_lines_invariant (("Mix and pour").data)).1
    (("Mix and pour").data) (by decide)

/-- Claim C10: when no recipe has the given id, `delete_recipe`,
`update_recipe_notes` and `update_recipe_metadata` all return failure without
calling `save_recipes`, leaving the stored collection unchanged. -/
theorem c10_missing_id_no_save (rid : List Char) (recipes : List Recipe)
    (notes : List Char) (u : MetadataUpdates)
    (h : ∀ r ∈ recipes, r.id ≠ rid) :
    delete_recipe rid recipes = (false, none) ∧
    update_recipe_notes rid notes recipes = (false, none) ∧
    update_recipe_metadata rid u recipes = (false, none) := by
  have hfind : recipes.find? (fun r => r.id == rid) = none := by
    rw [List.find?_eq_none]
    intro r hr
    simpa using h r hr
  have hany : recipes.any (fun r => r.id == rid) = false := by
    rw [List.any_eq_false]
    intro r hr
    simpa using h r hr
  refine ⟨?_, ?_, ?_⟩
  · by_cases he : recipes.isEmpty = true <;> simp [delete_recipe, he, hfind]
  · by_cases he : recipes.isEmpty = true <;> simp [update_recipe_notes, he, hany]
  · by_cases he : recipes.isEmpty = true <;> simp [update_recipe_metadata, he, hany]

/-- Claim C10, witness on a one-recipe collection and an unknown id. -/
theorem c10_witness :
    delete_recipe (("zz").data) [sampleRecipe] = (false, none) ∧
    update_recipe_notes (("zz").data) (("note").data) [sampleRecipe] = (false, none) ∧
    update_recipe_metadata (("zz").data) emptyUpdates [sampleRecipe] = (false, none) :=
  c10_missing_id_no_save (("zz").data) [sampleRecipe] (("note").data) emptyUpdates
    (by decide)

end Recipes
